import Mathlib

/-!
Shallow embedding of the rdwr sequential binary I/O library.

Bytes are modelled as `Nat` (each < 256 by construction), byte buffers as
`List Nat`, JS strings as `List Char` (Unicode scalar values), 64-bit
integers (JS bigint) as unbounded `Nat`/`Int`, and fallible operations as
`Except Err`.  Optional JS arguments are `Option Nat`, with the JS `x || d`
defaulting idiom modelled by `jsOrElse`.
-/

/-- Errors surfaced by the library or the platform primitives it uses. -/
inductive Err where
  | closedError
  | rangeError
  | unexpectedEndOfData
  | fuelExhausted
  | cancelError
  deriving DecidableEq

/-- The JS `x || d` idiom applied to an optional numeric argument:
`undefined` and `0` both fall back to the default. -/
def jsOrElse (v : Option Nat) (d : Nat) : Nat :=
  match v with
  | some l => if l = 0 then d else l
  | none => d

/-- `Uint8Array.prototype.set(src, off)`: copies `src` into `dest` starting
at `off`; throws a RangeError when the source overflows the target. -/
def u8set (dest src : List Nat) (off : Nat) : Except Err (List Nat) :=
  if off + src.length ≤ dest.length then
    .ok (dest.take off ++ src ++ dest.drop (off + src.length))
  else .error .rangeError

/-- Little-endian byte decomposition; `leBytes nb n` holds the `nb` bytes of
`n % 256 ^ nb`, least significant first.  This is how a `DataView` stores an
integer after the ECMAScript ToIntegerOrInfinity-and-truncate conversion. -/
def leBytes : Nat → Nat → List Nat
  | 0, _ => []
  | nb + 1, n => n % 256 :: leBytes nb (n / 256)

/-- Value of a little-endian byte list. -/
def leVal : List Nat → Nat
  | [] => 0
  | b :: rest => b + 256 * leVal rest

/-- `DataView.setUintN(0, n, littleEndian)`: the `nb` wire bytes (width-exact,
modulo 2^(8·nb), byte order per the flag; big-endian when the flag is false). -/
def dvSetUint (nb : Nat) (le : Bool) (n : Nat) : List Nat :=
  if le then leBytes nb n else (leBytes nb n).reverse

/-- `DataView.getUintN(0, littleEndian)` over the first `nb` bytes. -/
def dvGetUint (nb : Nat) (le : Bool) (u8 : List Nat) : Nat :=
  leVal (if le then u8.take nb else (u8.take nb).reverse)

/-- `DataView.setIntN(0, i, littleEndian)`: the signed value is stored as its
two's complement, i.e. as `i mod 2^(8·nb)`. -/
def dvSetInt (nb : Nat) (le : Bool) (i : Int) : List Nat :=
  dvSetUint nb le (i.emod (2 ^ (8 * nb))).toNat

/-- `DataView.getIntN(0, littleEndian)`: unsigned read, then the high bit
selects the negative residue. -/
def dvGetInt (nb : Nat) (le : Bool) (u8 : List Nat) : Int :=
  if dvGetUint nb le u8 < 2 ^ (8 * nb - 1) then (dvGetUint nb le u8 : Int)
  else (dvGetUint nb le u8 : Int) - 2 ^ (8 * nb)

/-- Raw-transfer source interface: `read state dest byteOffset byteLength`
returns (bytes transferred or -1 for EOF, updated dest, updated state).
This is the abstract primitive `AbstractDataReader` is written against. -/
structure RawReader (σ : Type) where
  read : σ → List Nat → Nat → Nat → Except Err (Int × List Nat × σ)

/-- The accumulation loop of `AbstractDataReader.readBytes`, with fuel making
the JS `while` total.  Fuel is only consulted when another iteration is due,
so any terminating trace with enough fuel computes the JS result. -/
def AbstractDataReader.readBytesGo {σ : Type} (R : RawReader σ) :
    Nat → σ → List Nat → Nat → Nat → Except Err (List Nat × σ)
  | 0, s, u8, head, length =>
    if head < length then .error .fuelExhausted else .ok (u8, s)
  | fuel + 1, s, u8, head, length =>
    if head < length then
      match R.read s u8 head (length - head) with
      | .error e => .error e
      | .ok (n, u8b, s2) =>
        if n = -1 then .error .unexpectedEndOfData
        else AbstractDataReader.readBytesGo R fuel s2 u8b (head + n.toNat) length
    else .ok (u8, s)

/-- `AbstractDataReader.readBytes(length)`: allocate a zeroed `length`-byte
buffer and loop raw reads until it is full, failing on EOF.  `length + 1`
iterations suffice for every trace in which at most one raw read in a row
transfers zero bytes. -/
def AbstractDataReader.readBytes {σ : Type} (R : RawReader σ) (s : σ)
    (length : Nat) : Except Err (List Nat × σ) :=
  AbstractDataReader.readBytesGo R (length + 1) s (List.replicate length 0) 0 length

/-- `ArrayBufferDataReader`: sequential reader over an in-memory byte buffer. -/
structure ArrayBufferDataReader where
  littleEndian : Bool
  src : List Nat
  head : Nat
  deriving DecidableEq

/-- `readFromBytes`: a fresh reader positioned at the start of `src`. -/
def ArrayBufferDataReader.ofBytes (le : Bool) (src : List Nat) : ArrayBufferDataReader :=
  ⟨le, src, 0⟩

/-- `ArrayBufferDataReader.read(buf, byteOffset?, byteLength?)`. -/
def ArrayBufferDataReader.read (r : ArrayBufferDataReader) (buf : List Nat)
    (byteOffset byteLength : Option Nat) : Except Err (Int × List Nat × ArrayBufferDataReader) :=
  let rem := r.src.length - r.head
  if rem = 0 then .ok (-1, buf, r)
  else if byteLength = some 0 then .ok (0, buf, r)
  else
    let off := jsOrElse byteOffset 0
    let bl := min rem (jsOrElse byteLength buf.length)
    let view := (r.src.drop r.head).take bl
    match u8set buf view off with
    | .ok buf2 => .ok ((bl : Int), buf2, { r with head := r.head + bl })
    | .error e => .error e

/-- The raw-transfer view of `ArrayBufferDataReader` used by the codec layer
(the codec always passes both offset and length explicitly). -/
def ArrayBufferDataReader.raw : RawReader ArrayBufferDataReader :=
  ⟨fun s u8 off len => ArrayBufferDataReader.read s u8 (some off) (some len)⟩

/-- `readUintN`: `readBytes(nb)` then `DataView.getUintN` with the reader's
endianness flag (for nb = 1 the source indexes `u8[0]` directly, which gives
the same byte). -/
def ArrayBufferDataReader.readUintN (nb : Nat) (r : ArrayBufferDataReader) :
    Except Err (Nat × ArrayBufferDataReader) :=
  match AbstractDataReader.readBytes ArrayBufferDataReader.raw r nb with
  | .error e => .error e
  | .ok (u8, r2) => .ok (dvGetUint nb r2.littleEndian u8, r2)

/-- `readIntN`: `readBytes(nb)` then `DataView.getIntN`. -/
def ArrayBufferDataReader.readIntN (nb : Nat) (r : ArrayBufferDataReader) :
    Except Err (Int × ArrayBufferDataReader) :=
  match AbstractDataReader.readBytes ArrayBufferDataReader.raw r nb with
  | .error e => .error e
  | .ok (u8, r2) => .ok (dvGetInt nb r2.littleEndian u8, r2)

/-- `readUint32` (used by `readString` for the length field). -/
def ArrayBufferDataReader.readUint32 (r : ArrayBufferDataReader) :
    Except Err (Nat × ArrayBufferDataReader) :=
  ArrayBufferDataReader.readUintN 4 r

/-- `TextEncoder` on one Unicode scalar value: its UTF-8 bytes. -/
def utf8EncodeChar (c : Char) : List Nat :=
  let v := c.toNat
  if v < 0x80 then [v]
  else if v < 0x800 then [0xC0 + v / 0x40, 0x80 + v % 0x40]
  else if v < 0x10000 then
    [0xE0 + v / 0x1000, 0x80 + v / 0x40 % 0x40, 0x80 + v % 0x40]
  else
    [0xF0 + v / 0x40000, 0x80 + v / 0x1000 % 0x40, 0x80 + v / 0x40 % 0x40, 0x80 + v % 0x40]

/-- `TextEncoder.encode` on a string of Unicode scalar values. -/
def utf8Encode (s : List Char) : List Nat :=
  (s.map utf8EncodeChar).flatten

/-- U+FFFD, emitted by `TextDecoder` for malformed input. -/
def replacementChar : Char := Char.ofNat 0xFFFD

/-- One step of the UTF-8 decoder (modelling `TextDecoder`, non-fatal mode):
given a lead byte and the bytes after it, the decoded scalar value and how
many continuation bytes are consumed.  Lead-byte ranges, continuation checks
and the overlong/surrogate exclusions follow the WHATWG UTF-8 decoder; a
malformed sequence yields U+FFFD, consumes no continuation bytes, and
decoding resumes at the next byte. -/
def utf8DecodeOne (b0 : Nat) (rest : List Nat) : Char × Nat :=
  if b0 < 0x80 then (Char.ofNat b0, 0)
  else if b0 < 0xC2 then (replacementChar, 0)
  else if b0 < 0xE0 then
    match rest with
    | b1 :: _ =>
      if 0x80 ≤ b1 ∧ b1 < 0xC0 then
        (Char.ofNat ((b0 - 0xC0) * 0x40 + (b1 - 0x80)), 1)
      else (replacementChar, 0)
    | [] => (replacementChar, 0)
  else if b0 < 0xF0 then
    match rest with
    | b1 :: b2 :: _ =>
      if (0x80 ≤ b1 ∧ b1 < 0xC0) ∧ (0x80 ≤ b2 ∧ b2 < 0xC0) ∧
          (b0 = 0xE0 → 0xA0 ≤ b1) ∧ (b0 = 0xED → b1 < 0xA0) then
        (Char.ofNat ((b0 - 0xE0) * 0x1000 + (b1 - 0x80) * 0x40 + (b2 - 0x80)), 2)
      else (replacementChar, 0)
    | _ => (replacementChar, 0)
  else if b0 < 0xF5 then
    match rest with
    | b1 :: b2 :: b3 :: _ =>
      if (0x80 ≤ b1 ∧ b1 < 0xC0) ∧ (0x80 ≤ b2 ∧ b2 < 0xC0) ∧ (0x80 ≤ b3 ∧ b3 < 0xC0) ∧
          (b0 = 0xF0 → 0x90 ≤ b1) ∧ (b0 = 0xF4 → b1 < 0x90) then
        (Char.ofNat
          ((b0 - 0xF0) * 0x40000 + (b1 - 0x80) * 0x1000 + (b2 - 0x80) * 0x40 + (b3 - 0x80)), 3)
      else (replacementChar, 0)
    | _ => (replacementChar, 0)
  else (replacementChar, 0)

/-- `TextDecoder.decode`: repeat `utf8DecodeOne` until the input is gone. -/
def utf8Decode : List Nat → List Char
  | [] => []
  | b0 :: rest =>
    (utf8DecodeOne b0 rest).1 :: utf8Decode (rest.drop (utf8DecodeOne b0 rest).2)
termination_by l => l.length
decreasing_by simp [List.length_drop]; omega

/-- `readString`: a 32-bit unsigned byte count (endianness applies), then that
many bytes, decoded as UTF-8 text. -/
def ArrayBufferDataReader.readString (r : ArrayBufferDataReader) :
    Except Err (List Char × ArrayBufferDataReader) :=
  match ArrayBufferDataReader.readUint32 r with
  | .error e => .error e
  | .ok (len, r1) =>
    match AbstractDataReader.readBytes ArrayBufferDataReader.raw r1 len with
    | .error e => .error e
    | .ok (data, r2) => .ok (utf8Decode data, r2)

/-- The capacity-doubling loop in `ArrayBufferDataWriter.write`.
`ArrayBuffer.transfer(nc)` (and the allocate-and-copy fallback, equivalent
here because bytes beyond the write position are zero) zero-extends the
backing store to the doubled capacity.  The source loop can only diverge at
capacity 0, which no writer ever has (the constructor allocates at least the
default 16 bytes); the `0 < cap` conjunct makes the function total without
changing any reachable behaviour. -/
def growLoop (buf : List Nat) (cap len need : Nat) : List Nat × Nat :=
  if h : cap - len < need ∧ 0 < cap then
    growLoop (buf ++ List.replicate (2 * cap - buf.length) 0) (2 * cap) len need
  else (buf, cap)
termination_by need + len - cap
decreasing_by omega

/-- `ArrayBufferDataWriter`: the growable in-memory byte sink, together with
the abstract codec state it inherits (`_littleEndian` and the 8-byte scratch
`DataView` `_buffer`). -/
structure ArrayBufferDataWriter where
  littleEndian : Bool
  scratch : List Nat
  buf : List Nat
  capacity : Nat
  len : Nat
  deriving DecidableEq

/-- The constructor with a given initial capacity (default 16); the
endianness flag is a mutable property, modelled as part of the initial
state. -/
def ArrayBufferDataWriter.make (le : Bool) (initialCapacity : Nat) : ArrayBufferDataWriter :=
  ⟨le, List.replicate 8 0, List.replicate initialCapacity 0, initialCapacity, 0⟩

/-- The `data` accessor: `new Uint8Array(_buf, 0, _len)`. -/
def ArrayBufferDataWriter.data (w : ArrayBufferDataWriter) : List Nat :=
  w.buf.take w.len

/-- `ArrayBufferDataWriter.write(buf, byteOffset?, byteLength?)`: grow by
doubling until the tail fits, then copy `u8.subarray(off, off + bl)` to the
write position and advance it. -/
def ArrayBufferDataWriter.write (w : ArrayBufferDataWriter) (u8 : List Nat)
    (byteOffset byteLength : Option Nat) : ArrayBufferDataWriter :=
  let off := jsOrElse byteOffset 0
  let bl := jsOrElse byteLength u8.length
  let view := (u8.drop off).take bl
  let g := growLoop w.buf w.capacity w.len bl
  { w with
    buf := g.1.take w.len ++ view ++ g.1.drop (w.len + view.length)
    capacity := g.2
    len := w.len + bl }

/-- `writeUintN(n)`: `DataView.setUintN(0, n, le)` into the scratch buffer,
then `this.write(this._buffer, 0, nb)`. -/
def ArrayBufferDataWriter.writeUintN (nb : Nat) (w : ArrayBufferDataWriter) (n : Nat) :
    ArrayBufferDataWriter :=
  let scratch := dvSetUint nb w.littleEndian n ++ w.scratch.drop nb
  ArrayBufferDataWriter.write { w with scratch := scratch } scratch (some 0) (some nb)

/-- `writeIntN(i)`: `DataView.setIntN(0, i, le)` into the scratch buffer,
then `this.write(this._buffer, 0, nb)`. -/
def ArrayBufferDataWriter.writeIntN (nb : Nat) (w : ArrayBufferDataWriter) (i : Int) :
    ArrayBufferDataWriter :=
  let scratch := dvSetInt nb w.littleEndian i ++ w.scratch.drop nb
  ArrayBufferDataWriter.write { w with scratch := scratch } scratch (some 0) (some nb)

/-- `writeUint32` (used by `writeString` for the length field). -/
def ArrayBufferDataWriter.writeUint32 (w : ArrayBufferDataWriter) (n : Nat) :
    ArrayBufferDataWriter :=
  ArrayBufferDataWriter.writeUintN 4 w n

/-- `writeString(s)`: UTF-8 encode, write the byte count as a 32-bit unsigned
integer, then write the bytes (no explicit offset or length). -/
def ArrayBufferDataWriter.writeString (w : ArrayBufferDataWriter) (s : List Char) :
    ArrayBufferDataWriter :=
  let bin := utf8Encode s
  ArrayBufferDataWriter.write (ArrayBufferDataWriter.writeUint32 w bin.length) bin none none

/-- A sequence of `write` calls with default offset and length. -/
def ArrayBufferDataWriter.writeAll (w : ArrayBufferDataWriter) (parts : List (List Nat)) :
    ArrayBufferDataWriter :=
  parts.foldl (fun acc p => ArrayBufferDataWriter.write acc p none none) w

/-- `ArrayBufferDataWriter.close()` invokes the externally supplied close
action (default `() => {}`) — the method body itself cannot fail and changes
no writer state. -/
def ArrayBufferDataWriter.close (w : ArrayBufferDataWriter) :
    Option Err × ArrayBufferDataWriter :=
  (none, w)

/-- Well-formedness invariant of the growable writer: the write position
never exceeds the capacity, the backing store has exactly `capacity` bytes,
and the capacity is positive (the constructor starts at 16). -/
def wfW (w : ArrayBufferDataWriter) : Prop :=
  w.len ≤ w.capacity ∧ w.buf.length = w.capacity ∧ 0 < w.capacity

/-- Lifecycle of the chunk-stitching blob reader. -/
inductive BlobState where
  | uninit
  | ready
  | closed
  deriving DecidableEq

/-- A buffered stream chunk with its read head (`{ data, head }`). -/
structure Chunk where
  data : List Nat
  head : Nat
  deriving DecidableEq

/-- `BlobDataReader`: the chunk-stitching reader.  `chunks` are the chunks
the underlying pull stream has not yielded yet (`reader.read()` pops the
first; an empty list means `done`); `chunk` is `_chunk`, the at-most-one
buffered chunk.  `BlobState.uninit`/`ready`/`closed` model the source's
`UNINITIALIZED`/`INITIALIZED`/`CLOSED` states. -/
structure BlobDataReader where
  littleEndian : Bool
  chunks : List (List Nat)
  state : BlobState
  chunk : Option Chunk
  deriving DecidableEq

/-- `_getReader()`: first use transitions `UNINITIALIZED → INITIALIZED`;
after `close()` it throws (`Cannot use reader after closing`). -/
def BlobDataReader.getReader (r : BlobDataReader) : Except Err BlobDataReader :=
  match r.state with
  | .uninit => .ok { r with state := .ready }
  | .ready => .ok r
  | .closed => .error .closedError

/-- `_nextChunk()`: return the buffered chunk if any, otherwise pull one from
the stream (`none` on end-of-stream), buffering it with head 0. -/
def BlobDataReader.nextChunk (r : BlobDataReader) : Except Err (Option Chunk × BlobDataReader) :=
  match r.chunk with
  | some c => .ok (some c, r)
  | none =>
    match BlobDataReader.getReader r with
    | .error e => .error e
    | .ok r1 =>
      match r1.chunks with
      | [] => .ok (none, r1)
      | d :: rest =>
        let c : Chunk := ⟨d, 0⟩
        .ok (some c, { r1 with chunks := rest, chunk := some c })

/-- The `while (read < byteLength)` loop of `BlobDataReader.read`, verbatim:
note that both the comparison `rem < byteLength` and the copy amount
`count = byteLength` use the full requested length, not the amount still
missing.  In the `rem < byteLength` arm the buffered chunk is dropped before
pulling the next one, so the local head bump of the old chunk is invisible;
in the other arm the buffered chunk and the loop's chunk are the same JS
object, so its head advance persists in `_chunk`.  Fuel only bounds the
number of iterations; each iteration either consumes one stream chunk or
makes `read` reach `byteLength`, so `BlobDataReader.read` always passes
enough. -/
def BlobDataReader.readLoop :
    Nat → BlobDataReader → List Nat → Nat → Nat → Nat → Chunk →
    Except Err (Nat × List Nat × BlobDataReader)
  | 0, _, _, _, _, _, _ => .error .fuelExhausted
  | fuel + 1, r, u8, byteOffset, byteLength, readAcc, chunk =>
    if readAcc < byteLength then
      let rem := chunk.data.length - chunk.head
      if rem < byteLength then
        match BlobDataReader.nextChunk { r with chunk := none } with
        | .error e => .error e
        | .ok (nextC, r2) =>
          match u8set u8 ((chunk.data.drop chunk.head).take rem) (byteOffset + readAcc) with
          | .error e => .error e
          | .ok u8b =>
            match nextC with
            | none => .ok (readAcc + rem, u8b, r2)
            | some c2 =>
              BlobDataReader.readLoop fuel r2 u8b byteOffset byteLength (readAcc + rem) c2
      else
        match u8set u8 ((chunk.data.drop chunk.head).take byteLength) (byteOffset + readAcc) with
        | .error e => .error e
        | .ok u8b =>
          let c2 : Chunk := ⟨chunk.data, chunk.head + byteLength⟩
          BlobDataReader.readLoop fuel { r with chunk := some c2 } u8b byteOffset byteLength
            (readAcc + byteLength) c2
    else .ok (readAcc, u8, r)

/-- `BlobDataReader.read(buf, byteOffset?, byteLength?)`: the `byteLength === 0`
early return precedes every state check; then defaults are applied, a chunk is
obtained (EOF → -1) and the stitching loop runs. -/
def BlobDataReader.read (r : BlobDataReader) (buf : List Nat)
    (byteOffset byteLength : Option Nat) : Except Err (Int × List Nat × BlobDataReader) :=
  if byteLength = some 0 then .ok (0, buf, r)
  else
    let off := jsOrElse byteOffset 0
    let bl := jsOrElse byteLength buf.length
    match BlobDataReader.nextChunk r with
    | .error e => .error e
    | .ok (none, r1) => .ok (-1, buf, r1)
    | .ok (some c, r1) =>
      match BlobDataReader.readLoop (bl + r1.chunks.length + 2) r1 buf off bl 0 c with
      | .error e => .error e
      | .ok (read, buf2, r2) => .ok ((read : Int), buf2, r2)

/-- The raw-transfer view of `BlobDataReader` used by the codec layer. -/
def BlobDataReader.raw : RawReader BlobDataReader :=
  ⟨fun s u8 off len => BlobDataReader.read s u8 (some off) (some len)⟩

/-- `BlobDataReader.close(rcFail, scFail)`: the state is set to `CLOSED`
first; for a previously initialized reader the chunk-reader handle's
`cancel()` is awaited with no try/catch (`rcFail` models its rejection, which
propagates and skips the `_chunk = null` cleanup), then the stream's
`cancel()` failure (`scFail`) is swallowed by the try/catch. -/
def BlobDataReader.close (r : BlobDataReader) (rcFail _scFail : Bool) :
    Option Err × BlobDataReader :=
  let st := r.state
  let r1 := { r with state := BlobState.closed }
  if st = BlobState.ready then
    if rcFail then (some Err.cancelError, r1)
    else (none, { r1 with chunk := none })
  else (none, { r1 with chunk := none })

theorem leBytes_length (nb n : Nat) : (leBytes nb n).length = nb := by
  induction nb generalizing n with
  | zero => rfl
  | succ m ih => simp [leBytes, ih]

theorem leVal_leBytes (nb n : Nat) : leVal (leBytes nb n) = n % 2 ^ (8 * nb) := by
  induction nb generalizing n with
  | zero => simp [leBytes, leVal, Nat.mod_one]
  | succ m ih =>
    have h256 : 2 ^ (8 * (m + 1)) = 256 * 2 ^ (8 * m) := by ring
    rw [leBytes, leVal, ih, h256, Nat.mod_mul]

theorem dvSetUint_length (nb : Nat) (le : Bool) (n : Nat) :
    (dvSetUint nb le n).length = nb := by
  cases le <;> simp [dvSetUint, leBytes_length]

theorem dvGetUint_dvSetUint (nb : Nat) (le : Bool) (n : Nat) :
    dvGetUint nb le (dvSetUint nb le n) = n % 2 ^ (8 * nb) := by
  have hlen : (leBytes nb n).length = nb := leBytes_length nb n
  cases le with
  | false =>
    simp [dvGetUint, dvSetUint]
    rw [List.take_of_length_le (by simp [hlen]), List.reverse_reverse, leVal_leBytes]
  | true =>
    simp [dvGetUint, dvSetUint]
    rw [List.take_of_length_le (by simp [hlen]), leVal_leBytes]

theorem dvSetInt_length (nb : Nat) (le : Bool) (i : Int) :
    (dvSetInt nb le i).length = nb := by
  simp [dvSetInt, dvSetUint_length]

theorem dvGetInt_dvSetInt (nb : Nat) (le : Bool) (i : Int) (hnb : 1 ≤ nb)
    (hlo : -(2 ^ (8 * nb - 1)) ≤ i) (hhi : i < 2 ^ (8 * nb - 1)) :
    dvGetInt nb le (dvSetInt nb le i) = i := by
  have hA : (0 : Int) < 2 ^ (8 * nb - 1) := by positivity
  have hM : (0 : Int) < 2 ^ (8 * nb) := by positivity
  have hsplit : (2 : Int) ^ (8 * nb) = 2 ^ (8 * nb - 1) * 2 := by
    rw [← pow_succ]
    congr 1
    omega
  have hmod : i.emod (2 ^ (8 * nb)) = if 0 ≤ i then i else i + 2 ^ (8 * nb) := by
    split
    · exact Int.emod_eq_of_lt (by assumption) (by omega)
    · have h1 : (i + 2 ^ (8 * nb) * 1).emod (2 ^ (8 * nb)) = i.emod (2 ^ (8 * nb)) :=
        Int.add_mul_emod_self_left i (2 ^ (8 * nb)) 1
      rw [mul_one] at h1
      rw [← h1]
      exact Int.emod_eq_of_lt (by omega) (by omega)
  have htn : (((i.emod (2 ^ (8 * nb))).toNat : Int)) = i.emod (2 ^ (8 * nb)) := by
    have := Int.emod_nonneg i (by omega : (2 : Int) ^ (8 * nb) ≠ 0)
    omega
  have hlt : (i.emod (2 ^ (8 * nb))).toNat < 2 ^ (8 * nb) := by
    have h1 := Int.emod_lt_of_pos i hM
    have h2 : ((2 ^ (8 * nb) : Nat) : Int) = (2 : Int) ^ (8 * nb) := by push_cast; ring
    omega
  have hcast : ((2 ^ (8 * nb - 1) : Nat) : Int) = (2 : Int) ^ (8 * nb - 1) := by
    push_cast; ring
  have hc2 : ((2 ^ (8 * nb) : Nat) : Int) = (2 : Int) ^ (8 * nb) := by push_cast; ring
  unfold dvGetInt dvSetInt
  rw [dvGetUint_dvSetUint, Nat.mod_eq_of_lt hlt]
  rw [hmod] at htn
  split
  · split at htn <;> omega
  · split at htn <;> omega

theorem growLoop_spec (buf : List Nat) (cap len need : Nat) :
    buf.length = cap →
    (growLoop buf cap len need).1 =
      buf ++ List.replicate ((growLoop buf cap len need).2 - cap) 0 ∧
    cap ≤ (growLoop buf cap len need).2 ∧
    (0 < cap → len ≤ cap → len + need ≤ (growLoop buf cap len need).2) := by
  induction buf, cap, len, need using growLoop.induct with
  | case1 buf cap len need h ih =>
    intro hb
    subst hb
    rw [growLoop.eq_def, dif_pos h]
    have hb2 : (buf ++ List.replicate (2 * buf.length - buf.length) 0).length =
        2 * buf.length := by
      simp
      omega
    obtain ⟨ih1, ih2, ih3⟩ := ih hb2
    refine ⟨?_, by omega, by intro h1 h2; exact ih3 (by omega) (by omega)⟩
    rw [ih1, List.append_assoc, ← List.replicate_add]
    congr 2
    omega
  | case2 buf cap len need h =>
    intro hb
    rw [growLoop.eq_def, dif_neg h]
    refine ⟨by simp, le_refl cap, ?_⟩
    intro h1 h2
    omega

/-- `ArrayBufferDataWriter.write` appends the selected view to the logical
contents, preserves the invariant, and touches nothing else, whenever the
requested window lies inside the source. -/
theorem ArrayBufferDataWriter.write_spec (w : ArrayBufferDataWriter) (u8 : List Nat)
    (byteOffset byteLength : Option Nat) (off bl : Nat)
    (hoff : jsOrElse byteOffset 0 = off) (hbl : jsOrElse byteLength u8.length = bl)
    (hwf : wfW w) (hfit : off + bl ≤ u8.length) :
    (w.write u8 byteOffset byteLength).data = w.data ++ (u8.drop off).take bl ∧
    wfW (w.write u8 byteOffset byteLength) ∧
    (w.write u8 byteOffset byteLength).len = w.len + bl ∧
    (w.write u8 byteOffset byteLength).littleEndian = w.littleEndian ∧
    (w.write u8 byteOffset byteLength).scratch = w.scratch := by
  obtain ⟨hlen, hbuflen, hcap⟩ := hwf
  have hview : ((u8.drop off).take bl).length = bl := by
    simp [List.length_take, List.length_drop]
    omega
  obtain ⟨hg1, hg2, hg3⟩ := growLoop_spec w.buf w.capacity w.len bl hbuflen
  have hglen : (growLoop w.buf w.capacity w.len bl).1.length =
      (growLoop w.buf w.capacity w.len bl).2 := by
    rw [hg1]
    simp
    omega
  have hfits : w.len + bl ≤ (growLoop w.buf w.capacity w.len bl).2 := hg3 hcap hlen
  unfold ArrayBufferDataWriter.write ArrayBufferDataWriter.data wfW
  rw [hoff, hbl]
  dsimp only
  set g := growLoop w.buf w.capacity w.len bl with hgdef
  have hA : (g.1.take w.len).length = w.len := by
    simp [List.length_take]
    omega
  have hAval : g.1.take w.len = w.buf.take w.len := by
    rw [hg1, List.take_append_of_le_length (by omega)]
  constructor
  · have hn : w.len + bl =
        (g.1.take w.len).length + ((u8.drop off).take bl).length := by
      rw [hA, hview]
    rw [hview, hn, ← List.length_append, List.take_left, hAval]
  refine ⟨⟨?_, ?_, ?_⟩, rfl, rfl, rfl⟩
  · exact hfits
  · rw [hview]
    simp [List.length_take, List.length_drop]
    omega
  · omega

theorem jsOrElse_some (x d : Nat) (hx : 0 < x) : jsOrElse (some x) d = x := by
  simp only [jsOrElse]
  rw [if_neg (by omega)]

theorem jsOrElse_some_zero (x : Nat) : jsOrElse (some x) 0 = x := by
  simp only [jsOrElse]
  split <;> omega

/-- One raw read of `ArrayBufferDataReader` with explicit arguments and a
positive length: EOF at exhaustion, otherwise a copy of `min rem want` bytes
into `u8` at `off` (RangeError if it would overflow the destination). -/
theorem ArrayBufferDataReader.read_spec (le : Bool) (src : List Nat) (head : Nat)
    (u8 : List Nat) (off want : Nat) (hwant : 0 < want) :
    ArrayBufferDataReader.read ⟨le, src, head⟩ u8 (some off) (some want) =
      (if src.length - head = 0 then .ok (-1, u8, ⟨le, src, head⟩)
       else if off + min (src.length - head) want ≤ u8.length then
        .ok (((min (src.length - head) want : Nat) : Int),
          u8.take off ++ (src.drop head).take (min (src.length - head) want) ++
            u8.drop (off + min (src.length - head) want),
          ⟨le, src, head + min (src.length - head) want⟩)
       else .error .rangeError) := by
  have hvl : ((src.drop head).take (min (src.length - head) want)).length =
      min (src.length - head) want := by
    simp [List.length_take, List.length_drop]
  unfold ArrayBufferDataReader.read
  dsimp only
  split
  · rfl
  · rename_i hrem
    rw [if_neg (by simp; omega), jsOrElse_some_zero, jsOrElse_some want u8.length hwant]
    unfold u8set
    rw [hvl]
    by_cases hfit : off + min (src.length - head) want ≤ u8.length
    · simp only [if_pos hfit]
    · simp only [if_neg hfit]

theorem readBytesGo_succ {σ : Type} (R : RawReader σ) (fuel : Nat) (s : σ)
    (u8 : List Nat) (head length : Nat) :
    AbstractDataReader.readBytesGo R (fuel + 1) s u8 head length =
      (if head < length then
        match R.read s u8 head (length - head) with
        | .error e => .error e
        | .ok (n, u8b, s2) =>
          if n = -1 then .error .unexpectedEndOfData
          else AbstractDataReader.readBytesGo R fuel s2 u8b (head + n.toNat) length
      else .ok (u8, s)) := rfl

theorem readBytesGo_done {σ : Type} (R : RawReader σ) (fuel : Nat) (s : σ)
    (u8 : List Nat) (head length : Nat) (h : ¬head < length) :
    AbstractDataReader.readBytesGo R fuel s u8 head length = .ok (u8, s) := by
  cases fuel <;> simp [AbstractDataReader.readBytesGo, h]

/-- `readBytes(n)` over an `ArrayBufferDataReader` with at least `n` bytes
left returns exactly the next `n` bytes and advances the head by `n`. -/
theorem ABR_readBytes_ok (le : Bool) (src : List Nat) (head n : Nat)
    (h : head + n ≤ src.length) :
    AbstractDataReader.readBytes ArrayBufferDataReader.raw ⟨le, src, head⟩ n =
      .ok ((src.drop head).take n, ⟨le, src, head + n⟩) := by
  cases n with
  | zero =>
    simp [AbstractDataReader.readBytes, AbstractDataReader.readBytesGo]
  | succ m =>
    have hrem : ¬(src.length - head = 0) := by omega
    have hmin : min (src.length - head) (m + 1) = m + 1 := by omega
    have h1 : ArrayBufferDataReader.raw.read ⟨le, src, head⟩ (List.replicate (m + 1) 0)
        0 (m + 1) =
        .ok (((m + 1 : Nat) : Int), (src.drop head).take (m + 1), ⟨le, src, head + (m + 1)⟩) := by
      show ArrayBufferDataReader.read ⟨le, src, head⟩ (List.replicate (m + 1) 0)
        (some 0) (some (m + 1)) = _
      rw [ArrayBufferDataReader.read_spec le src head _ 0 (m + 1) (by omega)]
      rw [if_neg hrem, hmin, if_pos (by simp)]
      simp
    unfold AbstractDataReader.readBytes
    rw [readBytesGo_succ, if_pos (by omega)]
    rw [show m + 1 - 0 = m + 1 from rfl, h1]
    dsimp only
    rw [if_neg (by omega)]
    rw [Int.toNat_natCast]
    exact readBytesGo_done _ _ _ _ _ _ (by omega)

/-- `readBytes(n)` over an `ArrayBufferDataReader` with fewer than `n` bytes
left fails with the unexpected-end-of-data error. -/
theorem ABR_readBytes_eof (le : Bool) (src : List Nat) (head n : Nat)
    (h1 : 0 < n) (h2 : src.length < head + n) :
    AbstractDataReader.readBytes ArrayBufferDataReader.raw ⟨le, src, head⟩ n =
      .error .unexpectedEndOfData := by
  obtain ⟨m, rfl⟩ : ∃ m, n = m + 1 := ⟨n - 1, by omega⟩
  unfold AbstractDataReader.readBytes
  rw [readBytesGo_succ, if_pos (by omega)]
  by_cases hrem : src.length - head = 0
  · have hr : ArrayBufferDataReader.raw.read ⟨le, src, head⟩ (List.replicate (m + 1) 0)
        0 (m + 1 - 0) = .ok (-1, List.replicate (m + 1) 0, ⟨le, src, head⟩) := by
      show ArrayBufferDataReader.read ⟨le, src, head⟩ (List.replicate (m + 1) 0)
        (some 0) (some (m + 1)) = _
      rw [ArrayBufferDataReader.read_spec le src head _ 0 (m + 1) (by omega), if_pos hrem]
    rw [hr]
    dsimp only
    rw [if_pos rfl]
  · have hmin : min (src.length - head) (m + 1) = src.length - head := by omega
    have hr : ArrayBufferDataReader.raw.read ⟨le, src, head⟩ (List.replicate (m + 1) 0)
        0 (m + 1 - 0) =
        .ok (((src.length - head : Nat) : Int),
          (List.replicate (m + 1) 0).take 0 ++ (src.drop head).take (src.length - head) ++
            (List.replicate (m + 1) 0).drop (0 + (src.length - head)),
          ⟨le, src, head + (src.length - head)⟩) := by
      show ArrayBufferDataReader.read ⟨le, src, head⟩ (List.replicate (m + 1) 0)
        (some 0) (some (m + 1)) = _
      rw [ArrayBufferDataReader.read_spec le src head _ 0 (m + 1) (by omega)]
      rw [if_neg hrem, hmin, if_pos (by simp; omega)]
    rw [hr]
    dsimp only
    rw [if_neg (by omega), Int.toNat_natCast]
    have hfuel : ∃ k, m = k + 1 := ⟨m - 1, by omega⟩
    obtain ⟨k, rfl⟩ := hfuel
    rw [readBytesGo_succ, if_pos (by omega)]
    have hr2 : ∀ U : List Nat,
        ArrayBufferDataReader.raw.read ⟨le, src, head + (src.length - head)⟩ U
          (0 + (src.length - head)) (k + 1 + 1 - (0 + (src.length - head))) =
        .ok (-1, U, ⟨le, src, head + (src.length - head)⟩) := by
      intro U
      show ArrayBufferDataReader.read _ _ (some _) (some _) = _
      rw [ArrayBufferDataReader.read_spec le src (head + (src.length - head)) U _ _ (by omega)]
      rw [if_pos (by omega)]
    rw [hr2]
    dsimp only
    rw [if_pos rfl]

theorem utf8Decode_encodeChar (c : Char) (rest : List Nat) :
    utf8Decode (utf8EncodeChar c ++ rest) = c :: utf8Decode rest := by
  have hval : c.toNat < 0xD800 ∨ (0xDFFF < c.toNat ∧ c.toNat < 0x110000) := c.valid
  have hofn : Char.ofNat c.toNat = c := Char.ofNat_toNat c
  unfold utf8EncodeChar
  dsimp only
  by_cases h1 : c.toNat < 0x80
  · rw [if_pos h1]
    simp only [List.cons_append, List.nil_append]
    rw [utf8Decode.eq_2]
    have hone : utf8DecodeOne c.toNat rest = (Char.ofNat c.toNat, 0) := by
      unfold utf8DecodeOne
      rw [if_pos h1]
    rw [hone]
    dsimp only
    rw [hofn, List.drop_zero]
  by_cases h2 : c.toNat < 0x800
  · rw [if_neg h1, if_pos h2]
    simp only [List.cons_append, List.nil_append]
    rw [utf8Decode.eq_2]
    have hone : utf8DecodeOne (0xC0 + c.toNat / 0x40) ((0x80 + c.toNat % 0x40) :: rest) =
        (Char.ofNat ((0xC0 + c.toNat / 0x40 - 0xC0) * 0x40 + (0x80 + c.toNat % 0x40 - 0x80)),
          1) := by
      unfold utf8DecodeOne
      rw [if_neg (by omega), if_neg (by omega), if_pos (by omega)]
      dsimp only
      rw [if_pos (by omega)]
    rw [hone]
    dsimp only
    have harith : (0xC0 + c.toNat / 0x40 - 0xC0) * 0x40 + (0x80 + c.toNat % 0x40 - 0x80) =
        c.toNat := by omega
    rw [harith, hofn]
    simp only [List.drop_succ_cons, List.drop_zero]
  by_cases h3 : c.toNat < 0x10000
  · rw [if_neg h1, if_neg h2, if_pos h3]
    simp only [List.cons_append, List.nil_append]
    rw [utf8Decode.eq_2]
    have hone : utf8DecodeOne (0xE0 + c.toNat / 0x1000)
        ((0x80 + c.toNat / 0x40 % 0x40) :: (0x80 + c.toNat % 0x40) :: rest) =
        (Char.ofNat ((0xE0 + c.toNat / 0x1000 - 0xE0) * 0x1000 +
          (0x80 + c.toNat / 0x40 % 0x40 - 0x80) * 0x40 + (0x80 + c.toNat % 0x40 - 0x80)),
          2) := by
      unfold utf8DecodeOne
      rw [if_neg (by omega), if_neg (by omega), if_neg (by omega), if_pos (by omega)]
      dsimp only
      rw [if_pos (by omega)]
    rw [hone]
    dsimp only
    have harith : (0xE0 + c.toNat / 0x1000 - 0xE0) * 0x1000 +
        (0x80 + c.toNat / 0x40 % 0x40 - 0x80) * 0x40 + (0x80 + c.toNat % 0x40 - 0x80) =
        c.toNat := by omega
    rw [harith, hofn]
    simp only [List.drop_succ_cons, List.drop_zero]
  · rw [if_neg h1, if_neg h2, if_neg h3]
    simp only [List.cons_append, List.nil_append]
    rw [utf8Decode.eq_2]
    have hone : utf8DecodeOne (0xF0 + c.toNat / 0x40000)
        ((0x80 + c.toNat / 0x1000 % 0x40) :: (0x80 + c.toNat / 0x40 % 0x40) ::
          (0x80 + c.toNat % 0x40) :: rest) =
        (Char.ofNat ((0xF0 + c.toNat / 0x40000 - 0xF0) * 0x40000 +
          (0x80 + c.toNat / 0x1000 % 0x40 - 0x80) * 0x1000 +
          (0x80 + c.toNat / 0x40 % 0x40 - 0x80) * 0x40 + (0x80 + c.toNat % 0x40 - 0x80)),
          3) := by
      unfold utf8DecodeOne
      rw [if_neg (by omega), if_neg (by omega), if_neg (by omega), if_neg (by omega),
        if_pos (by omega)]
      dsimp only
      rw [if_pos (by omega)]
    rw [hone]
    dsimp only
    have harith : (0xF0 + c.toNat / 0x40000 - 0xF0) * 0x40000 +
        (0x80 + c.toNat / 0x1000 % 0x40 - 0x80) * 0x1000 +
        (0x80 + c.toNat / 0x40 % 0x40 - 0x80) * 0x40 + (0x80 + c.toNat % 0x40 - 0x80) =
        c.toNat := by omega
    rw [harith, hofn]
    simp only [List.drop_succ_cons, List.drop_zero]

theorem utf8Decode_encode (s : List Char) : utf8Decode (utf8Encode s) = s := by
  induction s with
  | nil => rw [show utf8Encode [] = [] from rfl, utf8Decode.eq_1]
  | cons c t ih =>
    have : utf8Encode (c :: t) = utf8EncodeChar c ++ utf8Encode t := by
      simp [utf8Encode]
    rw [this, utf8Decode_encodeChar, ih]

theorem ABW_make_wf (le : Bool) (cap : Nat) (hc : 0 < cap) :
    wfW (ArrayBufferDataWriter.make le cap) := by
  refine ⟨by simp [ArrayBufferDataWriter.make], ?_, by simpa [ArrayBufferDataWriter.make]⟩
  simp [ArrayBufferDataWriter.make]

theorem ABW_make_data (le : Bool) (cap : Nat) :
    (ArrayBufferDataWriter.make le cap).data = [] := by
  simp [ArrayBufferDataWriter.make, ArrayBufferDataWriter.data]

/-- `writeUintN` appends exactly the `DataView` bytes of the value to the
writer's logical contents. -/
theorem ABW_writeUintN_spec (nb : Nat) (w : ArrayBufferDataWriter) (n : Nat)
    (hnb : 0 < nb) (hwf : wfW w) :
    (ArrayBufferDataWriter.writeUintN nb w n).data =
      w.data ++ dvSetUint nb w.littleEndian n ∧
    wfW (ArrayBufferDataWriter.writeUintN nb w n) ∧
    (ArrayBufferDataWriter.writeUintN nb w n).littleEndian = w.littleEndian := by
  unfold ArrayBufferDataWriter.writeUintN
  have hscrlen : (dvSetUint nb w.littleEndian n ++ w.scratch.drop nb).length =
      nb + (w.scratch.length - nb) := by
    simp [dvSetUint_length]
  have hwf1 : wfW { w with scratch := dvSetUint nb w.littleEndian n ++ w.scratch.drop nb } :=
    hwf
  obtain ⟨hd, hw2, hlen2, hle2, hscr2⟩ :=
    ArrayBufferDataWriter.write_spec
      { w with scratch := dvSetUint nb w.littleEndian n ++ w.scratch.drop nb }
      (dvSetUint nb w.littleEndian n ++ w.scratch.drop nb)
      (some 0) (some nb) 0 nb (jsOrElse_some_zero 0) (jsOrElse_some nb _ hnb) hwf1
      (by rw [hscrlen]; omega)
  refine ⟨?_, hw2, hle2⟩
  rw [hd]
  congr 1
  rw [List.drop_zero]
  rw [List.take_append_of_le_length (by simp [dvSetUint_length]),
    List.take_of_length_le (by simp [dvSetUint_length])]

/-- `writeIntN` appends exactly the `DataView` bytes of the value to the
writer's logical contents. -/
theorem ABW_writeIntN_spec (nb : Nat) (w : ArrayBufferDataWriter) (i : Int)
    (hnb : 0 < nb) (hwf : wfW w) :
    (ArrayBufferDataWriter.writeIntN nb w i).data =
      w.data ++ dvSetInt nb w.littleEndian i ∧
    wfW (ArrayBufferDataWriter.writeIntN nb w i) ∧
    (ArrayBufferDataWriter.writeIntN nb w i).littleEndian = w.littleEndian := by
  unfold ArrayBufferDataWriter.writeIntN
  have hscrlen : (dvSetInt nb w.littleEndian i ++ w.scratch.drop nb).length =
      nb + (w.scratch.length - nb) := by
    simp [dvSetInt_length]
  have hwf1 : wfW { w with scratch := dvSetInt nb w.littleEndian i ++ w.scratch.drop nb } :=
    hwf
  obtain ⟨hd, hw2, hlen2, hle2, hscr2⟩ :=
    ArrayBufferDataWriter.write_spec
      { w with scratch := dvSetInt nb w.littleEndian i ++ w.scratch.drop nb }
      (dvSetInt nb w.littleEndian i ++ w.scratch.drop nb)
      (some 0) (some nb) 0 nb (jsOrElse_some_zero 0) (jsOrElse_some nb _ hnb) hwf1
      (by rw [hscrlen]; omega)
  refine ⟨?_, hw2, hle2⟩
  rw [hd]
  congr 1
  rw [List.drop_zero]
  rw [List.take_append_of_le_length (by simp [dvSetInt_length]),
    List.take_of_length_le (by simp [dvSetInt_length])]

/-- `readUintN` over an in-memory reader with enough data left decodes the
next `nb` bytes with the reader's endianness flag. -/
theorem ABR_readUintN_spec (nb : Nat) (le : Bool) (src : List Nat) (head : Nat)
    (h : head + nb ≤ src.length) :
    ArrayBufferDataReader.readUintN nb ⟨le, src, head⟩ =
      .ok (dvGetUint nb le ((src.drop head).take nb), ⟨le, src, head + nb⟩) := by
  unfold ArrayBufferDataReader.readUintN
  rw [ABR_readBytes_ok le src head nb h]

/-- `readIntN` over an in-memory reader with enough data left decodes the
next `nb` bytes with the reader's endianness flag. -/
theorem ABR_readIntN_spec (nb : Nat) (le : Bool) (src : List Nat) (head : Nat)
    (h : head + nb ≤ src.length) :
    ArrayBufferDataReader.readIntN nb ⟨le, src, head⟩ =
      .ok (dvGetInt nb le ((src.drop head).take nb), ⟨le, src, head + nb⟩) := by
  unfold ArrayBufferDataReader.readIntN
  rw [ABR_readBytes_ok le src head nb h]

/-- C1: for every supported integer width (1, 2, 4 or 8 bytes), signedness
and both endianness settings, writing a value in range with the writer's
`writeUintN`/`writeIntN` and reading it back with the matching
`readUintN`/`readIntN` over the produced bytes returns the value; the bytes
on the wire are the width-exact two's-complement `DataView` bytes in the
byte order selected by the endianness flag (the two orders are reverses of
each other). -/
theorem claim1_int_roundtrip (nb : Nat) (hnb : nb = 1 ∨ nb = 2 ∨ nb = 4 ∨ nb = 8)
    (le : Bool) :
    (∀ v : Nat, v < 2 ^ (8 * nb) →
      ArrayBufferDataReader.readUintN nb (ArrayBufferDataReader.ofBytes le
        (ArrayBufferDataWriter.writeUintN nb (ArrayBufferDataWriter.make le 16) v).data) =
        .ok (v, ⟨le, dvSetUint nb le v, nb⟩)) ∧
    (∀ i : Int, -(2 ^ (8 * nb - 1)) ≤ i → i < 2 ^ (8 * nb - 1) →
      ArrayBufferDataReader.readIntN nb (ArrayBufferDataReader.ofBytes le
        (ArrayBufferDataWriter.writeIntN nb (ArrayBufferDataWriter.make le 16) i).data) =
        .ok (i, ⟨le, dvSetInt nb le i, nb⟩)) ∧
    (∀ v : Nat,
      (ArrayBufferDataWriter.writeUintN nb (ArrayBufferDataWriter.make le 16) v).data =
        dvSetUint nb le v ∧
      (dvSetUint nb le v).length = nb ∧
      dvSetUint nb le v = (dvSetUint nb (!le) v).reverse) := by
  have hnb1 : 0 < nb := by rcases hnb with h | h | h | h <;> omega
  have hdataU : ∀ v : Nat,
      (ArrayBufferDataWriter.writeUintN nb (ArrayBufferDataWriter.make le 16) v).data =
        dvSetUint nb le v := by
    intro v
    obtain ⟨hd, _, _⟩ :=
      ABW_writeUintN_spec nb (ArrayBufferDataWriter.make le 16) v hnb1 (ABW_make_wf le 16 (by omega))
    rw [hd, ABW_make_data, List.nil_append]
    rfl
  have hdataI : ∀ i : Int,
      (ArrayBufferDataWriter.writeIntN nb (ArrayBufferDataWriter.make le 16) i).data =
        dvSetInt nb le i := by
    intro i
    obtain ⟨hd, _, _⟩ :=
      ABW_writeIntN_spec nb (ArrayBufferDataWriter.make le 16) i hnb1 (ABW_make_wf le 16 (by omega))
    rw [hd, ABW_make_data, List.nil_append]
    rfl
  refine ⟨?_, ?_, ?_⟩
  · intro v hv
    rw [hdataU v]
    unfold ArrayBufferDataReader.ofBytes
    rw [ABR_readUintN_spec nb le (dvSetUint nb le v) 0 (by simp [dvSetUint_length])]
    rw [List.drop_zero, List.take_of_length_le (by simp [dvSetUint_length])]
    rw [dvGetUint_dvSetUint, Nat.mod_eq_of_lt hv]
    rw [Nat.zero_add]
  · intro i hlo hhi
    rw [hdataI i]
    unfold ArrayBufferDataReader.ofBytes
    rw [ABR_readIntN_spec nb le (dvSetInt nb le i) 0 (by simp [dvSetInt_length])]
    rw [List.drop_zero, List.take_of_length_le (by simp [dvSetInt_length])]
    rw [dvGetInt_dvSetInt nb le i hnb1 hlo hhi]
    rw [Nat.zero_add]
  · intro v
    refine ⟨hdataU v, dvSetUint_length nb le v, ?_⟩
    cases le <;> simp [dvSetUint]

/-- Witness for C1 at the 64-bit unsigned maximum in little-endian mode. -/
theorem claim1_witness :
    ArrayBufferDataReader.readUintN 8 (ArrayBufferDataReader.ofBytes true
      (ArrayBufferDataWriter.writeUintN 8 (ArrayBufferDataWriter.make true 16)
        (2 ^ 64 - 1)).data) =
      .ok (2 ^ 64 - 1, ⟨true, dvSetUint 8 true (2 ^ 64 - 1), 8⟩) :=
  (claim1_int_roundtrip 8 (by decide) true).1 (2 ^ 64 - 1) (by norm_num)

/-- C4: for every n > 0, `readBytes(n)` over an in-memory reader returns a
fresh n-byte buffer holding exactly the next n bytes of the source when they
are available, and fails with the unexpected-end-of-data error — surfacing
no partial buffer — when EOF is reached first. -/
theorem claim4_readBytes_underflow (le : Bool) (src : List Nat) (head n : Nat)
    (hn : 0 < n) :
    (head + n ≤ src.length →
      AbstractDataReader.readBytes ArrayBufferDataReader.raw ⟨le, src, head⟩ n =
        .ok ((src.drop head).take n, ⟨le, src, head + n⟩) ∧
      ((src.drop head).take n).length = n) ∧
    (src.length < head + n →
      AbstractDataReader.readBytes ArrayBufferDataReader.raw ⟨le, src, head⟩ n =
        .error .unexpectedEndOfData) := by
  constructor
  · intro h
    refine ⟨ABR_readBytes_ok le src head n h, ?_⟩
    simp [List.length_take, List.length_drop]
    omega
  · intro h
    exact ABR_readBytes_eof le src head n hn h

/-- Witness for C4: two bytes from a three-byte source. -/
theorem claim4_witness :
    AbstractDataReader.readBytes ArrayBufferDataReader.raw ⟨false, [7, 8, 9], 0⟩ 2 =
      .ok ([7, 8], ⟨false, [7, 8, 9], 2⟩) :=
  ((claim4_readBytes_underflow false [7, 8, 9] 0 2 (by decide)).1 (by decide)).1

/-- C10: `readBytes(0)` succeeds with an empty buffer for every raw-transfer
backend and every starting state, without consulting the backend at all (the
result is the same for every `RawReader`). -/
theorem claim10_readBytes_zero {σ : Type} (R : RawReader σ) (s : σ) :
    AbstractDataReader.readBytes R s 0 = .ok ([], s) := rfl

theorem ABW_writeAll_spec (parts : List (List Nat)) (w : ArrayBufferDataWriter)
    (hwf : wfW w) :
    (ArrayBufferDataWriter.writeAll w parts).data = w.data ++ parts.flatten ∧
    wfW (ArrayBufferDataWriter.writeAll w parts) := by
  induction parts generalizing w with
  | nil =>
    refine ⟨?_, hwf⟩
    simp [ArrayBufferDataWriter.writeAll]
  | cons p t ih =>
    obtain ⟨hd, hwf2, _, _, _⟩ :=
      ArrayBufferDataWriter.write_spec w p none none 0 p.length rfl rfl hwf (by omega)
    obtain ⟨ihd, ihwf⟩ := ih (w.write p none none) hwf2
    refine ⟨?_, ?_⟩
    · show (ArrayBufferDataWriter.writeAll (w.write p none none) t).data = _
      rw [ihd, hd, List.drop_zero, List.take_length, List.flatten_cons, List.append_assoc]
    · exact ihwf

/-- C6: writing a byte sequence through the growable writer in any partition
into successive `write` calls (including ones forcing several doubling
growth events) produces the same `data` as writing it in one call, namely
exactly the concatenation of the written chunks; and the `data` view has
exactly `length_written` bytes. -/
theorem claim6_growth (le : Bool) (parts : List (List Nat)) :
    (ArrayBufferDataWriter.writeAll (ArrayBufferDataWriter.make le 16) parts).data =
      parts.flatten ∧
    ((ArrayBufferDataWriter.make le 16).write parts.flatten none none).data =
      parts.flatten ∧
    (ArrayBufferDataWriter.writeAll (ArrayBufferDataWriter.make le 16) parts).data =
      ((ArrayBufferDataWriter.make le 16).write parts.flatten none none).data ∧
    (ArrayBufferDataWriter.writeAll (ArrayBufferDataWriter.make le 16) parts).data.length =
      (ArrayBufferDataWriter.writeAll (ArrayBufferDataWriter.make le 16) parts).len := by
  obtain ⟨h1, hwf1⟩ :=
    ABW_writeAll_spec parts (ArrayBufferDataWriter.make le 16) (ABW_make_wf le 16 (by omega))
  rw [ABW_make_data, List.nil_append] at h1
  obtain ⟨h2, _, _, _, _⟩ :=
    ArrayBufferDataWriter.write_spec (ArrayBufferDataWriter.make le 16) parts.flatten
      none none 0 parts.flatten.length rfl rfl (ABW_make_wf le 16 (by omega)) (by omega)
  rw [ABW_make_data, List.nil_append, List.drop_zero, List.take_length] at h2
  obtain ⟨hl1, hl2, _⟩ := hwf1
  refine ⟨h1, h2, by rw [h1, h2], ?_⟩
  show ((ArrayBufferDataWriter.writeAll (ArrayBufferDataWriter.make le 16) parts).buf.take
    (ArrayBufferDataWriter.writeAll (ArrayBufferDataWriter.make le 16) parts).len).length = _
  simp [List.length_take]
  omega

theorem ABW_writeString_data (le : Bool) (s : List Char) :
    ((ArrayBufferDataWriter.make le 16).writeString s).data =
      dvSetUint 4 le (utf8Encode s).length ++ utf8Encode s := by
  unfold ArrayBufferDataWriter.writeString ArrayBufferDataWriter.writeUint32
  dsimp only
  obtain ⟨hd1, hwf1, hle1⟩ :=
    ABW_writeUintN_spec 4 (ArrayBufferDataWriter.make le 16) (utf8Encode s).length
      (by omega) (ABW_make_wf le 16 (by omega))
  obtain ⟨hd2, _, _, _, _⟩ :=
    ArrayBufferDataWriter.write_spec
      (ArrayBufferDataWriter.writeUintN 4 (ArrayBufferDataWriter.make le 16)
        (utf8Encode s).length)
      (utf8Encode s) none none 0 (utf8Encode s).length rfl rfl hwf1 (by omega)
  rw [hd2, hd1, ABW_make_data, List.nil_append, List.drop_zero, List.take_length]
  rfl

theorem dvSetUint_take (nb : Nat) (le : Bool) (n : Nat) (tail : List Nat) :
    (dvSetUint nb le n ++ tail).take nb = dvSetUint nb le n := by
  rw [List.take_append_of_le_length (by simp [dvSetUint_length]),
    List.take_of_length_le (by simp [dvSetUint_length])]

theorem dvSetUint_drop (nb : Nat) (le : Bool) (n : Nat) (tail : List Nat) :
    (dvSetUint nb le n ++ tail).drop nb = tail := by
  rw [List.drop_append_eq_append_drop]
  rw [List.drop_eq_nil_of_le (by simp [dvSetUint_length])]
  simp [dvSetUint_length]

/-- C5 (amended): for every string of Unicode scalar values whose UTF-8
encoding is shorter than 2^32 bytes, `writeString` emits the 4-byte unsigned
byte count (subject to the endianness flag) followed by the UTF-8 bytes, and
`readString` over the produced bytes under the same endianness returns the
same string. -/
theorem claim5_string_roundtrip (le : Bool) (s : List Char)
    (hlen : (utf8Encode s).length < 2 ^ 32) :
    ((ArrayBufferDataWriter.make le 16).writeString s).data =
      dvSetUint 4 le (utf8Encode s).length ++ utf8Encode s ∧
    ∃ r2 : ArrayBufferDataReader,
      ArrayBufferDataReader.readString (ArrayBufferDataReader.ofBytes le
        ((ArrayBufferDataWriter.make le 16).writeString s).data) = .ok (s, r2) := by
  have hdata := ABW_writeString_data le s
  refine ⟨hdata, ⟨le, dvSetUint 4 le (utf8Encode s).length ++ utf8Encode s,
    0 + 4 + (utf8Encode s).length⟩, ?_⟩
  rw [hdata]
  unfold ArrayBufferDataReader.readString ArrayBufferDataReader.readUint32
    ArrayBufferDataReader.ofBytes
  rw [ABR_readUintN_spec 4 le _ 0 (by simp [dvSetUint_length])]
  rw [List.drop_zero, dvSetUint_take, dvGetUint_dvSetUint]
  have h32 : 2 ^ (8 * 4) = 2 ^ 32 := by norm_num
  rw [h32, Nat.mod_eq_of_lt hlen]
  dsimp only
  rw [ABR_readBytes_ok le _ (0 + 4) (utf8Encode s).length
    (by simp [dvSetUint_length])]
  dsimp only
  rw [show (0 + 4 : Nat) = 4 from rfl, dvSetUint_drop, List.take_length, utf8Decode_encode]

/-- Witness for C5 at a one-character string with a 4-byte code point. -/
theorem claim5_witness :
    (utf8Encode [Char.ofNat 128512]).length < 2 ^ 32 ∧
    (((ArrayBufferDataWriter.make false 16).writeString [Char.ofNat 128512]).data =
      dvSetUint 4 false (utf8Encode [Char.ofNat 128512]).length ++
        utf8Encode [Char.ofNat 128512] ∧
    ∃ r2 : ArrayBufferDataReader,
      ArrayBufferDataReader.readString (ArrayBufferDataReader.ofBytes false
        ((ArrayBufferDataWriter.make false 16).writeString [Char.ofNat 128512]).data) =
        .ok ([Char.ofNat 128512], r2)) :=
  ⟨by decide, claim5_string_roundtrip false [Char.ofNat 128512] (by decide)⟩

theorem utf8Encode_replicate_a (m : Nat) :
    utf8Encode (List.replicate m (Char.ofNat 97)) = List.replicate m 97 := by
  induction m with
  | zero => rfl
  | succ k ih =>
    rw [List.replicate_succ,
      show utf8Encode (Char.ofNat 97 :: List.replicate k (Char.ofNat 97)) =
        utf8EncodeChar (Char.ofNat 97) ++ utf8Encode (List.replicate k (Char.ofNat 97)) from
          by simp [utf8Encode],
      ih, show utf8EncodeChar (Char.ofNat 97) = [97] from by decide,
      List.replicate_succ]
    rfl

/-- `readString` over a frame `[4-byte length n][tail]`: the decoded length
is `n mod 2^32` and that many bytes of the tail are decoded as UTF-8. -/
theorem ABR_readString_spec (le : Bool) (n : Nat) (tail : List Nat)
    (h : n % 2 ^ 32 ≤ tail.length) :
    ArrayBufferDataReader.readString (ArrayBufferDataReader.ofBytes le
      (dvSetUint 4 le n ++ tail)) =
      .ok (utf8Decode (tail.take (n % 2 ^ 32)),
        ⟨le, dvSetUint 4 le n ++ tail, 4 + n % 2 ^ 32⟩) := by
  unfold ArrayBufferDataReader.readString ArrayBufferDataReader.readUint32
    ArrayBufferDataReader.ofBytes
  rw [ABR_readUintN_spec 4 le _ 0 (by simp [dvSetUint_length])]
  rw [List.drop_zero, dvSetUint_take, dvGetUint_dvSetUint]
  have h32 : 2 ^ (8 * 4) = 2 ^ 32 := by norm_num
  rw [h32]
  dsimp only
  rw [ABR_readBytes_ok le _ (0 + 4) (n % 2 ^ 32) (by simp [dvSetUint_length]; omega)]
  dsimp only
  rw [show (0 + 4 : Nat) = 4 from rfl, dvSetUint_drop]

/-- C5 counterexample: for a string of 2^32 ASCII characters the 4-byte
length field wraps to 0, so reading the written bytes back yields the empty
string, not a string with the same UTF-8 content — the unrestricted claim
fails. -/
theorem claim5_counterexample :
    (∃ r2 : ArrayBufferDataReader,
      ArrayBufferDataReader.readString (ArrayBufferDataReader.ofBytes false
        ((ArrayBufferDataWriter.make false 16).writeString
          (List.replicate (2 ^ 32) (Char.ofNat 97))).data) = .ok ([], r2)) ∧
    ([] : List Char) ≠ List.replicate (2 ^ 32) (Char.ofNat 97) := by
  constructor
  · have hdata := ABW_writeString_data false (List.replicate (2 ^ 32) (Char.ofNat 97))
    rw [utf8Encode_replicate_a, List.length_replicate] at hdata
    have hrs := ABR_readString_spec false (2 ^ 32) (List.replicate (2 ^ 32) 97)
      (by rw [Nat.mod_self]; exact Nat.zero_le _)
    rw [Nat.mod_self, List.take_zero, utf8Decode.eq_1] at hrs
    refine ⟨⟨false, dvSetUint 4 false (2 ^ 32) ++ List.replicate (2 ^ 32) 97, 4 + 0⟩, ?_⟩
    rw [hdata]
    exact hrs
  · intro hcontra
    have hlen := congrArg List.length hcontra
    rw [List.length_nil, List.length_replicate] at hlen
    omega

/-- C2: evaluating `BlobDataReader.read` where a length-5 request spans a
3-byte chunk followed by a 5-byte chunk.  The loop compares the chunk
remainder and sets the copy amount against the full requested length instead
of the amount still missing, so the second iteration tries to copy 5 more
bytes at offset 3 of the 5-byte destination and the `Uint8Array.set` throws
a RangeError — instead of placing bytes 1..5 and returning 5. -/
theorem claim2_overcopy_eval :
    BlobDataReader.read ⟨false, [[1, 2, 3], [4, 5, 6, 7, 8]], .uninit, none⟩
      (List.replicate 5 0) (some 0) (some 5) = .error Err.rangeError := rfl

/-- C3: an equivalent `readBytes(4)` call over the same logical byte
sequence 1..6 succeeds when the stream delivers one single chunk or chunks
of size 1, but throws a RangeError when it delivers chunks of size 3 — the
outcomes differ across chunkings. -/
theorem claim3_chunking_eval :
    AbstractDataReader.readBytes BlobDataReader.raw
      ⟨false, [[1, 2, 3, 4, 5, 6]], .uninit, none⟩ 4 =
      .ok ([1, 2, 3, 4], ⟨false, [], .ready, some ⟨[1, 2, 3, 4, 5, 6], 4⟩⟩) ∧
    AbstractDataReader.readBytes BlobDataReader.raw
      ⟨false, [[1, 2, 3], [4, 5, 6]], .uninit, none⟩ 4 =
      .error Err.rangeError ∧
    AbstractDataReader.readBytes BlobDataReader.raw
      ⟨false, [[1], [2], [3], [4], [5], [6]], .uninit, none⟩ 4 =
      .ok ([1, 2, 3, 4], ⟨false, [[6]], .ready, some ⟨[5], 0⟩⟩) := ⟨rfl, rfl, rfl⟩

/-- C9: a read that exactly drains a chunk retains the drained chunk as the
buffered chunk; the following 1-byte read then returns 0 — neither EOF (-1)
nor a positive count — contradicting the raw-transfer contract and the
method's own doc comment; and `ArrayBufferDataReader.read` returns -1, not
0, for a zero-length request once the buffer is exhausted. -/
theorem claim9_raw_read_eval :
    BlobDataReader.read ⟨false, [[1, 2, 3]], .uninit, none⟩
      (List.replicate 3 0) (some 0) (some 3) =
      .ok (3, [1, 2, 3], ⟨false, [], .ready, some ⟨[1, 2, 3], 3⟩⟩) ∧
    BlobDataReader.read ⟨false, [], .ready, some ⟨[1, 2, 3], 3⟩⟩
      (List.replicate 1 0) (some 0) (some 1) =
      .ok (0, [0], ⟨false, [], .ready, none⟩) ∧
    ArrayBufferDataReader.read ⟨false, [], 0⟩ [] (some 0) (some 0) =
      .ok (-1, [], ⟨false, [], 0⟩) := ⟨rfl, rfl, rfl⟩

/-- C7 counterexample: two read operations on a CLOSED reader that do not
fail with ClosedError — a zero-length read returns 0 (the length check
precedes the state check), and a read served entirely from a buffered chunk
leaked by a failed close never consults the state at all. -/
theorem claim7_counterexample :
    BlobDataReader.read ⟨false, [[1, 2]], .closed, none⟩ (List.replicate 4 0)
      none (some 0) =
      .ok (0, List.replicate 4 0, ⟨false, [[1, 2]], .closed, none⟩) ∧
    BlobDataReader.read ⟨false, [], .closed, some ⟨[9], 0⟩⟩ (List.replicate 1 0)
      (some 0) (some 1) =
      .ok (1, [9], ⟨false, [], .closed, some ⟨[9], 1⟩⟩) := ⟨rfl, rfl⟩

/-- C7 (amended): the lifecycle states are UNINITIALIZED, INITIALIZED and
CLOSED, and no transition leaves CLOSED (`close` always lands in CLOSED, and
a read on a closed reader either fails or returns the state unchanged); a
read with a nonzero requested length on a CLOSED reader with no buffered
chunk fails with ClosedError; a read with requested length 0 returns 0
without error even while CLOSED. -/
theorem claim7_closed_behaviour (r : BlobDataReader) (buf : List Nat)
    (off len? : Option Nat) (hc : r.state = BlobState.closed) (hch : r.chunk = none) :
    (len? ≠ some 0 → BlobDataReader.read r buf off len? = .error .closedError) ∧
    BlobDataReader.read r buf off (some 0) = .ok (0, buf, r) ∧
    (∀ r2 : BlobDataReader, ∀ rc sc : Bool,
      ((BlobDataReader.close r2 rc sc).2).state = BlobState.closed) := by
  have hnc : BlobDataReader.nextChunk r = .error .closedError := by
    unfold BlobDataReader.nextChunk
    rw [hch]
    dsimp only
    unfold BlobDataReader.getReader
    rw [hc]
  refine ⟨?_, ?_, ?_⟩
  · intro hne
    unfold BlobDataReader.read
    rw [if_neg hne, hnc]
  · unfold BlobDataReader.read
    rw [if_pos rfl]
  · intro r2 rc sc
    unfold BlobDataReader.close
    dsimp only
    split
    · split <;> rfl
    · rfl

/-- Witness for C7 at a concrete closed reader and a 1-byte request. -/
theorem claim7_witness :
    BlobDataReader.read ⟨false, [[5]], BlobState.closed, none⟩ [0] (some 0) (some 1) =
      .error .closedError :=
  (claim7_closed_behaviour ⟨false, [[5]], BlobState.closed, none⟩ [0] (some 0) (some 1)
    rfl rfl).1 (by decide)

/-- C8 counterexample: the first close of an initialized reader whose chunk
reader handle's cancel rejects propagates that rejection to the caller
instead of catching and discarding it (only the stream's own cancel is
wrapped in try/catch). -/
theorem claim8_counterexample :
    (BlobDataReader.close ⟨false, [], BlobState.ready, none⟩ true false).1 =
      some Err.cancelError := rfl

/-- C8 (amended): closing is idempotent in that a second close never raises
and leaves the reader CLOSED; stream-cancellation failures during close are
swallowed (a first close whose chunk-handle cancel succeeds reports no error
regardless of the stream cancel outcome), and closing an already-closed
reader never raises; however a chunk-handle cancel rejection does propagate
out of the first close of an initialized reader; the in-memory writer's
close only invokes its external callback and itself never raises nor
changes the writer. -/
theorem claim8_close_idempotent (r : BlobDataReader) (rc sc rc2 sc2 : Bool) :
    (BlobDataReader.close (BlobDataReader.close r rc sc).2 rc2 sc2).1 = none ∧
    ((BlobDataReader.close (BlobDataReader.close r rc sc).2 rc2 sc2).2).state =
      BlobState.closed ∧
    (rc = false → (BlobDataReader.close r rc sc).1 = none) ∧
    (r.state = BlobState.closed → (BlobDataReader.close r rc sc).1 = none) ∧
    (∀ w : ArrayBufferDataWriter, (ArrayBufferDataWriter.close w).1 = none ∧
      (ArrayBufferDataWriter.close w).2 = w) := by
  have hstate : ∀ (r' : BlobDataReader) (rc' sc' : Bool),
      ((BlobDataReader.close r' rc' sc').2).state = BlobState.closed := by
    intro r' rc' sc'
    unfold BlobDataReader.close
    dsimp only
    split
    · split <;> rfl
    · rfl
  have hclosed : ∀ (r' : BlobDataReader) (rc' sc' : Bool),
      r'.state = BlobState.closed → (BlobDataReader.close r' rc' sc').1 = none := by
    intro r' rc' sc' h
    unfold BlobDataReader.close
    dsimp only
    rw [if_neg (by rw [h]; decide)]
  refine ⟨hclosed _ rc2 sc2 (hstate r rc sc), hstate _ rc2 sc2, ?_, hclosed r rc sc, ?_⟩
  · intro hrc
    subst hrc
    unfold BlobDataReader.close
    dsimp only
    split
    · rfl
    · rfl
  · intro w
    exact ⟨rfl, rfl⟩

/-- Witness for C8: a first close with a functioning chunk-handle cancel and
a failing stream cancel reports no error. -/
theorem claim8_witness :
    (BlobDataReader.close ⟨false, [], BlobState.ready, some ⟨[1], 0⟩⟩ false true).1 =
      none :=
  (claim8_close_idempotent ⟨false, [], BlobState.ready, some ⟨[1], 0⟩⟩ false true
    false false).2.2.1 rfl
